import Mathlib

/-!
# Verification of the YoutubeDownloader repository

The repository contains three near-duplicate command-line download scripts
(two variants in `index.js`, a byte-counting variant embedded after the
separator in `README.md`) plus documentation (`unnamed/part_000`) of a richer
Python variant (`yt_downloader.py`) whose code is not part of the sources.

This file gives a shallow embedding of:
 * the acquisition planner (Split vs Combined decision) — the deciding code
   (`yt_downloader.py`) is absent from the sources, so it is modelled from the
   specification, section 4.1;
 * the download executor of the byte-counting variant (the
   `downloadedBytes` / `totalBytes` / progress handlers attached to the
   `ytdl` stream and the file write stream);
 * the destination-path construction shared by all variants
   (`${fileName}.mp4`);
 * the setup sequence of the progress-bar variant (the second script in
   `index.js`), which sizes its progress bar by `fs.statSync` on the
   destination path.
-/

/-- Modelled from the spec: one candidate media stream as returned by the
stream catalog resolver (spec section 3, `StreamDescriptor`). -/
structure StreamDescriptor where
  hasVideo : Bool
  hasAudio : Bool
  container : String
  resolutionRank : Nat
  audioBitrateRank : Nat
  sizeBytes : Option Nat
deriving DecidableEq

/-- A stream carrying both video and audio (a progressive stream). -/
def isCombined (s : StreamDescriptor) : Bool :=
  s.hasVideo && s.hasAudio

/-- A video-only (adaptive) stream. -/
def isVideoOnly (s : StreamDescriptor) : Bool :=
  s.hasVideo && !s.hasAudio

/-- An audio-only (adaptive) stream. -/
def isAudioOnly (s : StreamDescriptor) : Bool :=
  s.hasAudio && !s.hasVideo

/-- Modelled from the spec: pick the better of two streams by
`resolutionRank`, breaking ties by preferring container `mp4`
(spec section 4.1, steps 1 and 2); on a tie where neither or both are
`mp4` the earlier stream is kept (the deterministic order left open by the
spec's design notes). -/
def preferByRes (a b : StreamDescriptor) : StreamDescriptor :=
  if a.resolutionRank < b.resolutionRank then b
  else if a.resolutionRank = b.resolutionRank ∧
          a.container ≠ "mp4" ∧ b.container = "mp4" then b
  else a

/-- Modelled from the spec: pick the better of two streams by
`audioBitrateRank` (spec section 4.1, step 3); ties keep the earlier one. -/
def preferByAud (a b : StreamDescriptor) : StreamDescriptor :=
  if a.audioBitrateRank < b.audioBitrateRank then b
  else a

/-- The best element of a list under a binary choice function, `none` on the
empty list. -/
def bestBy (better : StreamDescriptor → StreamDescriptor → StreamDescriptor) :
    List StreamDescriptor → Option StreamDescriptor
  | [] => none
  | x :: xs => some (xs.foldl better x)

/-- Modelled from the spec: `bestCombined` of section 4.1, step 1. -/
def bestCombined (catalog : List StreamDescriptor) : Option StreamDescriptor :=
  bestBy preferByRes (catalog.filter isCombined)

/-- Modelled from the spec: `bestVideoOnly` of section 4.1, step 2. -/
def bestVideoOnly (catalog : List StreamDescriptor) : Option StreamDescriptor :=
  bestBy preferByRes (catalog.filter isVideoOnly)

/-- Modelled from the spec: `bestAudioOnly` of section 4.1, step 3. -/
def bestAudioOnly (catalog : List StreamDescriptor) : Option StreamDescriptor :=
  bestBy preferByAud (catalog.filter isAudioOnly)

/-- Modelled from the spec: the acquisition plan (spec section 3,
`AcquisitionPlan`). -/
inductive AcquisitionPlan where
  | combined (stream : StreamDescriptor)
  | split (videoStream audioStream : StreamDescriptor)
deriving DecidableEq

/-- Modelled from the spec: the planner's fatal error (spec section 4.1,
step 6 and section 7). -/
inductive PlannerError where
  | noStreamAvailable
deriving DecidableEq

/-- Modelled from the spec: the acquisition planner, spec section 4.1,
steps 4 to 6.  The deciding code (`yt_downloader.py`) is not among the
sources; only its documentation (`unnamed/part_000`) is. -/
def plan (catalog : List StreamDescriptor) (mergeToolAvailable : Bool) :
    Except PlannerError AcquisitionPlan :=
  match bestVideoOnly catalog, bestAudioOnly catalog with
  | some v, some a =>
      if mergeToolAvailable &&
          (bestCombined catalog).all
            (fun c => decide (c.resolutionRank < v.resolutionRank)) then
        Except.ok (AcquisitionPlan.split v a)
      else
        match bestCombined catalog with
        | some c => Except.ok (AcquisitionPlan.combined c)
        | none => Except.error PlannerError.noStreamAvailable
  | _, _ =>
      match bestCombined catalog with
      | some c => Except.ok (AcquisitionPlan.combined c)
      | none => Except.error PlannerError.noStreamAvailable

/-- The Split-mode guard of spec section 4.1, step 4, as a predicate on the
planner's inputs: a merge tool plus a best video-only and best audio-only
pair that beats (or has no) combined alternative. -/
def splitQualifies (catalog : List StreamDescriptor)
    (mergeToolAvailable : Bool) : Prop :=
  mergeToolAvailable = true ∧
    ∃ v a, bestVideoOnly catalog = some v ∧ bestAudioOnly catalog = some a ∧
      (bestCombined catalog = none ∨
        ∃ c, bestCombined catalog = some c ∧
          c.resolutionRank < v.resolutionRank)

/-- Embeds `const outputFilePath = fileName + ".mp4"` — the destination-path
construction used verbatim by every script variant (`index.js` and the
`README.md` variant): the user-supplied base name is used unmodified. -/
def outputFilePath (fileName : String) : String :=
  fileName ++ ".mp4"

/-- Embeds JavaScript `parseInt(x, 10)` as the byte-counting variant applies
it to the `content-length` response header: `none` is JavaScript `NaN`
(header missing — `parseInt(undefined, 10)` — or not starting with a digit);
otherwise the value of the leading digit run.  Content-Length values are
non-negative, so the sign handling of `parseInt` is irrelevant here. -/
def jsParseInt (header : Option String) : Option Nat :=
  match header with
  | none => none
  | some s =>
      let ds := (s.data.dropWhile (fun c => c = ' ')).takeWhile Char.isDigit
      if ds.isEmpty then none
      else some (ds.foldl (fun n c => n * 10 + (c.toNat - 48)) 0)

/-- The value the byte-counting variant writes on each data chunk.  The code
computes `(downloadedBytes / totalBytes) * 100` in JavaScript arithmetic:
a finite percentage when the total is a positive number, `NaN` when the
total is `NaN` (unknown size) or when `0 / 0` occurs, and `Infinity` when a
positive count is divided by the initial total `0`.  The finite case is
modelled by the exact rational value of the expression. -/
inductive ProgressValue where
  | percent (value : ℚ)
  | nanPercent
  | infPercent
deriving DecidableEq

/-- `(downloadedBytes / totalBytes) * 100` from the `data` handler, with
`none` playing the role of `NaN` for `totalBytes`. -/
def computeProgress (downloaded : Nat) (total : Option Nat) : ProgressValue :=
  match total with
  | none => ProgressValue.nanPercent
  | some t =>
      if t = 0 then
        if downloaded = 0 then ProgressValue.nanPercent
        else ProgressValue.infPercent
      else ProgressValue.percent ((downloaded : ℚ) / (t : ℚ) * 100)

/-- The events the byte-counting variant's handlers can observe: the HTTP
response (carrying the `content-length` header when present), a data chunk
of a given byte length, the write stream's `finish` event, the write
stream's `error` event, and an `error` event on the `ytdl` source stream —
for which the code installs no handler at all. -/
inductive Event where
  | response (contentLength : Option String)
  | chunk (size : Nat)
  | finish
  | fileError (cause : String)
  | sourceError (cause : String)
deriving DecidableEq

/-- The lifecycle state of the download, in the spec's `DownloadTask`
vocabulary: `completed` once the `finish` handler has run, `failed` once the
file stream's `error` handler has run, and `crashed` when the source stream
emitted `error` with no handler installed — Node then raises an uncaught
exception and the process dies. -/
inductive TaskState where
  | inProgress
  | completed
  | failed
  | crashed (cause : String)
deriving DecidableEq

/-- The mutable state of the byte-counting variant:
`downloadedBytes` and `totalBytes` are the two script variables
(`totalBytes` starts as the number `0` and becomes `parseInt(header)`,
possibly `NaN = none`); `reports` collects the progress values written by
the `data` handler; `successPrinted` records the `finish` handler's
completion message; `errorPrinted` records the cause printed by the file
stream's `error` handler. -/
structure DownloadState where
  downloadedBytes : Nat
  totalBytes : Option Nat
  taskState : TaskState
  reports : List ProgressValue
  successPrinted : Bool
  errorPrinted : Option String
deriving DecidableEq

/-- The state before any event: both counters `0`, transfer in progress,
nothing printed. -/
def initState : DownloadState :=
  { downloadedBytes := 0
    totalBytes := some 0
    taskState := TaskState.inProgress
    reports := []
    successPrinted := false
    errorPrinted := none }

/-- One event handled by the byte-counting variant.  Terminal states absorb:
`finish` and `error` are mutually exclusive terminal events of a Node
stream, and after the uncaught source error the process is gone. -/
def step (s : DownloadState) (e : Event) : DownloadState :=
  match s.taskState with
  | TaskState.completed => s
  | TaskState.failed => s
  | TaskState.crashed _ => s
  | TaskState.inProgress =>
      match e with
      | Event.response h => { s with totalBytes := jsParseInt h }
      | Event.chunk n =>
          let d := s.downloadedBytes + n
          { s with
              downloadedBytes := d
              reports := s.reports ++ [computeProgress d s.totalBytes] }
      | Event.finish =>
          { s with taskState := TaskState.completed, successPrinted := true }
      | Event.fileError c =>
          { s with taskState := TaskState.failed, errorPrinted := some c }
      | Event.sourceError c =>
          { s with taskState := TaskState.crashed c }

/-- Run the byte-counting variant over a whole event trace. -/
def run (trace : List Event) : DownloadState :=
  trace.foldl step initState

/-- The sizes of the data chunks of a trace, in order. -/
def chunkSizes (trace : List Event) : List Nat :=
  trace.filterMap (fun e =>
    match e with
    | Event.chunk n => some n
    | _ => none)

/-- Whether an event ends the transfer (either terminal stream event, or the
unhandled source error). -/
def isTerminal (e : Event) : Bool :=
  match e with
  | Event.finish => true
  | Event.fileError _ => true
  | Event.sourceError _ => true
  | _ => false

/-- A trace on which the transfer is still running: no terminal event. -/
def noTerminal (trace : List Event) : Bool :=
  trace.all (fun e => !isTerminal e)

/-- Embeds `fs.statSync(path).size` over a finite association list modelling
the directory: `Except.error` is the `ENOENT` exception thrown when the path
does not exist. -/
def statSyncSize (files : List (String × Nat)) (path : String) :
    Except String Nat :=
  match files.lookup path with
  | some n => Except.ok n
  | none => Except.error "ENOENT"

/-- The state reached by the progress-bar variant's setup when it survives:
the `ProgressBar` total and the fact that the pipe to the destination file
was started. -/
structure BarSession where
  barTotal : Nat
  pipeStarted : Bool
deriving DecidableEq

/-- Embeds the setup sequence of the progress-bar variant (second script of
`index.js`): after creating the `ytdl` stream the script evaluates
`fs.statSync(outputFilePath).size`, uses that as the `ProgressBar` total and
only then pipes the stream to the destination file.  `streamExpectedBytes`
is the declared size of the stream being downloaded; the code never consults
it.  An `Except.error` is the `statSync` exception, thrown before the pipe
(and hence the download) starts. -/
def setupProgressVariant (files : List (String × Nat)) (fileName : String)
    (streamExpectedBytes : Option Nat) : Except String BarSession :=
  match statSyncSize files (outputFilePath fileName) with
  | Except.error e => Except.error e
  | Except.ok n => Except.ok { barTotal := n, pipeStarted := true }

/-- Scenario A's single progressive stream (spec section 8). -/
def streamCombined480 : StreamDescriptor := ⟨true, true, "mp4", 480, 0, none⟩

/-- Scenario B's progressive stream (spec section 8). -/
def streamCombined720 : StreamDescriptor := ⟨true, true, "mp4", 720, 0, none⟩

/-- Scenario B's adaptive video-only stream (spec section 8). -/
def streamVideo2160 : StreamDescriptor := ⟨true, false, "mp4", 2160, 0, none⟩

/-- Scenario C's adaptive video-only stream (spec section 8). -/
def streamVideo720 : StreamDescriptor := ⟨true, false, "mp4", 720, 0, none⟩

/-- An adaptive audio-only stream (spec section 8, scenarios B and C). -/
def streamAudio128 : StreamDescriptor := ⟨false, true, "webm", 0, 128, none⟩

/-- Scenario A's catalog. -/
def catalogA : List StreamDescriptor := [streamCombined480]

/-- Scenario B's catalog. -/
def catalogB : List StreamDescriptor :=
  [streamCombined720, streamVideo2160, streamAudio128]

/-- Scenario C's catalog. -/
def catalogC : List StreamDescriptor :=
  [streamCombined720, streamVideo720, streamAudio128]

/-! ## Helper lemmas about the planner's best-stream selection -/

theorem preferByRes_cases (a b : StreamDescriptor) :
    preferByRes a b = a ∨ preferByRes a b = b := by
  unfold preferByRes
  split
  · exact Or.inr rfl
  · split
    · exact Or.inr rfl
    · exact Or.inl rfl

theorem preferByAud_cases (a b : StreamDescriptor) :
    preferByAud a b = a ∨ preferByAud a b = b := by
  unfold preferByAud
  split
  · exact Or.inr rfl
  · exact Or.inl rfl

theorem foldl_choice_mem
    (better : StreamDescriptor → StreamDescriptor → StreamDescriptor)
    (hch : ∀ a b, better a b = a ∨ better a b = b) :
    ∀ (xs : List StreamDescriptor) (x : StreamDescriptor),
      xs.foldl better x ∈ x :: xs := by
  intro xs
  induction xs with
  | nil => intro x; simp [List.foldl]
  | cons b xs ih =>
      intro x
      simp only [List.foldl]
      rcases hch x b with h | h
      · rw [h]
        rcases List.mem_cons.mp (ih x) with h2 | h2
        · rw [h2]; exact List.mem_cons_self x _
        · exact List.mem_cons_of_mem _ (List.mem_cons_of_mem _ h2)
      · rw [h]
        rcases List.mem_cons.mp (ih b) with h2 | h2
        · rw [h2]; exact List.mem_cons_of_mem _ (List.mem_cons_self b _)
        · exact List.mem_cons_of_mem _ (List.mem_cons_of_mem _ h2)

theorem bestBy_mem
    (better : StreamDescriptor → StreamDescriptor → StreamDescriptor)
    (hch : ∀ a b, better a b = a ∨ better a b = b)
    (l : List StreamDescriptor) (x : StreamDescriptor)
    (h : bestBy better l = some x) : x ∈ l := by
  cases l with
  | nil => cases h
  | cons y ys =>
      have hx : ys.foldl better y = x := by
        unfold bestBy at h
        exact Option.some.inj h
      rw [← hx]
      exact foldl_choice_mem better hch ys y

theorem bestCombined_spec (catalog : List StreamDescriptor)
    (c : StreamDescriptor) (h : bestCombined catalog = some c) :
    c ∈ catalog ∧ isCombined c = true := by
  unfold bestCombined at h
  have hm := bestBy_mem preferByRes preferByRes_cases _ _ h
  exact ⟨List.mem_of_mem_filter hm, List.of_mem_filter hm⟩

theorem bestVideoOnly_spec (catalog : List StreamDescriptor)
    (v : StreamDescriptor) (h : bestVideoOnly catalog = some v) :
    v ∈ catalog ∧ isVideoOnly v = true := by
  unfold bestVideoOnly at h
  have hm := bestBy_mem preferByRes preferByRes_cases _ _ h
  exact ⟨List.mem_of_mem_filter hm, List.of_mem_filter hm⟩

theorem bestAudioOnly_spec (catalog : List StreamDescriptor)
    (a : StreamDescriptor) (h : bestAudioOnly catalog = some a) :
    a ∈ catalog ∧ isAudioOnly a = true := by
  unfold bestAudioOnly at h
  have hm := bestBy_mem preferByAud preferByAud_cases _ _ h
  exact ⟨List.mem_of_mem_filter hm, List.of_mem_filter hm⟩

/-! ## Claim theorems for the planner -/

/-- C1: whenever the merge tool is available, a best video-only stream and a
best audio-only stream both exist, and either no combined stream exists or
the best video-only stream's resolution rank strictly exceeds the best
combined one's, the planner produces `Split(bestVideoOnly, bestAudioOnly)`
rather than a Combined plan. -/
theorem planner_split_when_better (catalog : List StreamDescriptor)
    (v a : StreamDescriptor)
    (hv : bestVideoOnly catalog = some v)
    (ha : bestAudioOnly catalog = some a)
    (hc : bestCombined catalog = none ∨
      ∃ c, bestCombined catalog = some c ∧
        c.resolutionRank < v.resolutionRank) :
    plan catalog true = Except.ok (AcquisitionPlan.split v a) := by
  unfold plan
  rw [hv, ha]
  rcases hc with h | ⟨c, hc1, hc2⟩
  · rw [h]
    simp
  · rw [hc1]
    simp [hc2]

/-- Witness for C1 at spec scenario B: a 720p combined stream, a 2160p
video-only stream and an audio-only stream, merge tool available. -/
theorem planner_split_when_better_witness :
    plan catalogB true =
      Except.ok (AcquisitionPlan.split streamVideo2160 streamAudio128) :=
  planner_split_when_better catalogB streamVideo2160 streamAudio128 rfl rfl
    (Or.inr ⟨streamCombined720, rfl, by decide⟩)

/-- C3: when the catalog holds no combined stream and no video-only plus
audio-only pair (in particular when it is empty), the planner fails with
`NoStreamAvailable` and produces no plan at all. -/
theorem planner_no_stream (catalog : List StreamDescriptor) (mta : Bool)
    (hcomb : ∀ s ∈ catalog, isCombined s = false)
    (hpair : ¬((∃ v ∈ catalog, isVideoOnly v = true) ∧
      (∃ a ∈ catalog, isAudioOnly a = true))) :
    plan catalog mta = Except.error PlannerError.noStreamAvailable := by
  have hbc : bestCombined catalog = none := by
    unfold bestCombined
    have hnil : catalog.filter isCombined = [] := by
      rw [List.filter_eq_nil_iff]
      intro s hs
      simp [hcomb s hs]
    rw [hnil]
    rfl
  unfold plan
  split
  · rename_i v a hv ha
    have h1 := bestVideoOnly_spec catalog v hv
    have h2 := bestAudioOnly_spec catalog a ha
    exact absurd ⟨⟨v, h1.1, h1.2⟩, ⟨a, h2.1, h2.2⟩⟩ hpair
  · rw [hbc]

/-- Witness for C3 at spec scenario D: the empty catalog. -/
theorem planner_no_stream_witness :
    plan ([] : List StreamDescriptor) true =
      Except.error PlannerError.noStreamAvailable :=
  planner_no_stream [] true (by intro s hs; cases hs)
    (by rintro ⟨⟨v, hv, -⟩, -⟩; cases hv)

/-- C4: the planner is a pure, deterministic function of the catalog and the
merge-tool flag, and every stream a plan references is present in the input
catalog. -/
theorem planner_pure (catalog : List StreamDescriptor) (mta : Bool) :
    plan catalog mta = plan catalog mta ∧
    (∀ c, plan catalog mta = Except.ok (AcquisitionPlan.combined c) →
      c ∈ catalog) ∧
    (∀ v a, plan catalog mta = Except.ok (AcquisitionPlan.split v a) →
      v ∈ catalog ∧ a ∈ catalog) := by
  refine ⟨rfl, ?_, ?_⟩
  · intro c hc
    unfold plan at hc
    split at hc
    · rename_i v a hv ha
      split at hc
      · cases hc
      · split at hc
        · rename_i c0 hc0
          cases hc
          exact (bestCombined_spec catalog c hc0).1
        · cases hc
    · split at hc
      · rename_i c0 hc0
        cases hc
        exact (bestCombined_spec catalog c hc0).1
      · cases hc
  · intro v a hva
    unfold plan at hva
    split at hva
    · rename_i v0 a0 hv ha
      split at hva
      · cases hva
        exact ⟨(bestVideoOnly_spec catalog v hv).1,
          (bestAudioOnly_spec catalog a ha).1⟩
      · split at hva
        · cases hva
        · cases hva
    · split at hva
      · cases hva
      · cases hva

/-- Witness for C4 at spec scenario A: the single 480p combined stream is a
member of its own catalog. -/
theorem planner_pure_witness : streamCombined480 ∈ catalogA :=
  (planner_pure catalogA false).2.1 streamCombined480 rfl

/-! ## Maximality of the best-combined selection (for C2) -/

/-- The order the fold maintains: the current best `r` dominates `y` when it
has strictly higher resolution rank, or equal rank with the `mp4`
preference respected. -/
def domRes (r y : StreamDescriptor) : Prop :=
  y.resolutionRank < r.resolutionRank ∨
    (y.resolutionRank = r.resolutionRank ∧
      (y.container = "mp4" → r.container = "mp4"))

theorem domRes_refl (r : StreamDescriptor) : domRes r r :=
  Or.inr ⟨rfl, fun h => h⟩

theorem domRes_trans (r s y : StreamDescriptor)
    (h1 : domRes r s) (h2 : domRes s y) : domRes r y := by
  rcases h1 with h1 | ⟨h1e, h1m⟩
  · rcases h2 with h2 | ⟨h2e, -⟩
    · exact Or.inl (Nat.lt_trans h2 h1)
    · exact Or.inl (h2e ▸ h1)
  · rcases h2 with h2 | ⟨h2e, h2m⟩
    · exact Or.inl (h1e ▸ h2)
    · exact Or.inr ⟨h2e.trans h1e, fun h => h1m (h2m h)⟩

theorem preferByRes_dom_left (a b : StreamDescriptor) :
    domRes (preferByRes a b) a := by
  unfold preferByRes
  split
  · rename_i h
    exact Or.inl h
  · split
    · rename_i h2
      exact Or.inr ⟨h2.1, fun hm => absurd hm h2.2.1⟩
    · exact domRes_refl a

theorem preferByRes_dom_right (a b : StreamDescriptor) :
    domRes (preferByRes a b) b := by
  unfold preferByRes
  split
  · exact domRes_refl b
  · split
    · exact domRes_refl b
    · rename_i h1 h2
      rcases Nat.lt_or_ge b.resolutionRank a.resolutionRank with hlt | hge
      · exact Or.inl hlt
      · have heq : b.resolutionRank = a.resolutionRank :=
          Nat.le_antisymm (Nat.le_of_not_lt h1) hge
        refine Or.inr ⟨heq, fun hbm => ?_⟩
        by_contra ham
        exact h2 ⟨heq.symm, ham, hbm⟩

theorem foldl_preferByRes_dom :
    ∀ (xs : List StreamDescriptor) (x : StreamDescriptor),
      ∀ y ∈ x :: xs, domRes (xs.foldl preferByRes x) y := by
  intro xs
  induction xs with
  | nil =>
      intro x y hy
      rcases List.mem_cons.mp hy with h | h
      · rw [h]; exact domRes_refl x
      · cases h
  | cons b xs ih =>
      intro x y hy
      simp only [List.foldl]
      have hhead : domRes (xs.foldl preferByRes (preferByRes x b))
          (preferByRes x b) :=
        ih (preferByRes x b) (preferByRes x b) (List.mem_cons_self _ _)
      rcases List.mem_cons.mp hy with h | h
      · rw [h]
        exact domRes_trans _ _ _ hhead (preferByRes_dom_left x b)
      · rcases List.mem_cons.mp h with h2 | h2
        · rw [h2]
          exact domRes_trans _ _ _ hhead (preferByRes_dom_right x b)
        · exact ih (preferByRes x b) y (List.mem_cons_of_mem _ h2)

theorem bestCombined_max (catalog : List StreamDescriptor)
    (c : StreamDescriptor) (h : bestCombined catalog = some c) :
    ∀ s ∈ catalog, isCombined s = true →
      s.resolutionRank ≤ c.resolutionRank ∧
      (s.resolutionRank = c.resolutionRank → s.container = "mp4" →
        c.container = "mp4") := by
  intro s hs hsc
  have hsf : s ∈ catalog.filter isCombined := List.mem_filter.mpr ⟨hs, hsc⟩
  unfold bestCombined at h
  cases hfl : catalog.filter isCombined with
  | nil => rw [hfl] at hsf; cases hsf
  | cons x xs =>
      rw [hfl] at h hsf
      have hc : xs.foldl preferByRes x = c := by
        unfold bestBy at h
        exact Option.some.inj h
      have hdom := foldl_preferByRes_dom xs x s hsf
      rw [hc] at hdom
      rcases hdom with hlt | ⟨heq, hmp⟩
      · exact ⟨Nat.le_of_lt hlt, fun he _ => absurd he (Nat.ne_of_lt hlt)⟩
      · exact ⟨Nat.le_of_eq heq, fun _ hm => hmp hm⟩

/-- C2: on a catalog holding at least one combined stream, when no
video-only/audio-only pair qualifies for Split the planner produces
`Combined` with a catalog stream of maximal resolution rank among the
combined streams, ties broken by preferring container `mp4`. -/
theorem planner_combined_best (catalog : List StreamDescriptor) (mta : Bool)
    (hex : ∃ s ∈ catalog, isCombined s = true)
    (hns : ¬ splitQualifies catalog mta) :
    ∃ c, plan catalog mta = Except.ok (AcquisitionPlan.combined c) ∧
      c ∈ catalog ∧ isCombined c = true ∧
      (∀ s ∈ catalog, isCombined s = true →
        s.resolutionRank ≤ c.resolutionRank) ∧
      (∀ s ∈ catalog, isCombined s = true →
        s.resolutionRank = c.resolutionRank → s.container = "mp4" →
        c.container = "mp4") := by
  obtain ⟨s0, hs0, hs0c⟩ := hex
  have hbc : ∃ c, bestCombined catalog = some c := by
    unfold bestCombined
    cases hfl : catalog.filter isCombined with
    | nil =>
        exfalso
        have hmem := List.mem_filter.mpr ⟨hs0, hs0c⟩
        rw [hfl] at hmem
        cases hmem
    | cons x xs => exact ⟨xs.foldl preferByRes x, rfl⟩
  obtain ⟨c, hc⟩ := hbc
  refine ⟨c, ?_, (bestCombined_spec catalog c hc).1,
    (bestCombined_spec catalog c hc).2,
    fun s hs hsc => (bestCombined_max catalog c hc s hs hsc).1,
    fun s hs hsc => (bestCombined_max catalog c hc s hs hsc).2⟩
  unfold plan
  split
  · rename_i v a hv ha
    split
    · rename_i hif
      exfalso
      have hif2 := Bool.and_eq_true .. |>.mp hif
      have hall := hif2.2
      rw [hc] at hall
      simp only [Option.all, decide_eq_true_eq] at hall
      exact hns ⟨hif2.1, v, a, hv, ha, Or.inr ⟨c, hc, hall⟩⟩
    · rw [hc]
  · rw [hc]

/-- Witness for C2 at spec scenario C: combined 720p, video-only 720p and an
audio-only stream with the merge tool available — splitting gains nothing,
so the combined 720p stream is chosen. -/
theorem planner_combined_best_witness :
    ∃ c, plan catalogC true = Except.ok (AcquisitionPlan.combined c) ∧
      c ∈ catalogC ∧ isCombined c = true ∧
      (∀ s ∈ catalogC, isCombined s = true →
        s.resolutionRank ≤ c.resolutionRank) ∧
      (∀ s ∈ catalogC, isCombined s = true →
        s.resolutionRank = c.resolutionRank → s.container = "mp4" →
        c.container = "mp4") :=
  planner_combined_best catalogC true
    ⟨streamCombined720, by decide, by decide⟩
    (by
      rintro ⟨-, v, a, hv, ha, hor⟩
      have hbv : bestVideoOnly catalogC = some streamVideo720 := rfl
      rw [hbv] at hv
      obtain rfl : streamVideo720 = v := Option.some.inj hv
      have hbcC : bestCombined catalogC = some streamCombined720 := rfl
      rcases hor with hnone | ⟨c, hceq, hclt⟩
      · rw [hbcC] at hnone
        cases hnone
      · rw [hbcC] at hceq
        obtain rfl : streamCombined720 = c := Option.some.inj hceq
        exact absurd hclt (by decide))

/-! ## Helper lemmas about the download executor -/

theorem step_downloadedBytes_le (s : DownloadState) (e : Event) :
    s.downloadedBytes ≤ (step s e).downloadedBytes := by
  unfold step
  split
  · exact Nat.le_refl _
  · exact Nat.le_refl _
  · exact Nat.le_refl _
  · split
    · exact Nat.le_refl _
    · exact Nat.le_add_right _ _
    · exact Nat.le_refl _
    · exact Nat.le_refl _
    · exact Nat.le_refl _

theorem run_append (t : List Event) (e : Event) :
    run (t ++ [e]) = step (run t) e := by
  unfold run
  rw [List.foldl_append]
  rfl

theorem step_inProgress_response (s : DownloadState) (h : Option String)
    (hs : s.taskState = TaskState.inProgress) :
    step s (Event.response h) = { s with totalBytes := jsParseInt h } := by
  unfold step
  rw [hs]

theorem step_inProgress_chunk (s : DownloadState) (n : Nat)
    (hs : s.taskState = TaskState.inProgress) :
    step s (Event.chunk n) =
      { s with
          downloadedBytes := s.downloadedBytes + n
          reports := s.reports ++
            [computeProgress (s.downloadedBytes + n) s.totalBytes] } := by
  unfold step
  rw [hs]

theorem step_inProgress_finish (s : DownloadState)
    (hs : s.taskState = TaskState.inProgress) :
    step s Event.finish =
      { s with taskState := TaskState.completed, successPrinted := true } := by
  unfold step
  rw [hs]

theorem foldl_step_noTerminal (t : List Event) :
    ∀ s : DownloadState, noTerminal t = true →
      s.taskState = TaskState.inProgress →
      (t.foldl step s).downloadedBytes =
        s.downloadedBytes + (chunkSizes t).sum ∧
      (t.foldl step s).taskState = TaskState.inProgress := by
  induction t with
  | nil =>
      intro s _ hs
      exact ⟨by simp [List.foldl, chunkSizes], hs⟩
  | cons e t ih =>
      intro s hnt hs
      have hparts := Bool.and_eq_true .. |>.mp (by
        unfold noTerminal at hnt
        rw [List.all_cons] at hnt
        exact hnt)
      have hne : isTerminal e = false := by
        have := hparts.1
        rwa [Bool.not_eq_true'] at this
      have htail : noTerminal t = true := hparts.2
      cases e with
      | response h =>
          rw [List.foldl_cons, step_inProgress_response s h hs]
          have := ih { s with totalBytes := jsParseInt h } htail hs
          simpa [chunkSizes] using this
      | chunk n =>
          rw [List.foldl_cons, step_inProgress_chunk s n hs]
          have := ih
            { s with
                downloadedBytes := s.downloadedBytes + n
                reports := s.reports ++
                  [computeProgress (s.downloadedBytes + n) s.totalBytes] }
            htail hs
          refine ⟨?_, this.2⟩
          rw [this.1]
          simp [chunkSizes]
          omega
      | finish => cases hne
      | fileError c => cases hne
      | sourceError c => cases hne

/-! ## Claim theorems for the download executor -/

/-- C5: over any event trace of the byte-counting variant,
`downloadedBytes` never decreases when one more event is handled; while the
transfer is running it equals the sum of the chunk sizes received so far;
and when the transfer then finishes cleanly with a known expected size that
the transport has delivered in full, the final count equals that expected
size and the task is completed. -/
theorem downloadedBytes_invariant (t : List Event) :
    (∀ e, (run t).downloadedBytes ≤ (run (t ++ [e])).downloadedBytes) ∧
    (noTerminal t = true →
      (run t).downloadedBytes = (chunkSizes t).sum) ∧
    (∀ n, noTerminal t = true →
      (run (t ++ [Event.finish])).totalBytes = some n →
      (chunkSizes t).sum = n →
      (run (t ++ [Event.finish])).taskState = TaskState.completed ∧
      (run (t ++ [Event.finish])).downloadedBytes = n) := by
  have hrun : noTerminal t = true →
      (run t).downloadedBytes = (chunkSizes t).sum ∧
      (run t).taskState = TaskState.inProgress := by
    intro h
    have := foldl_step_noTerminal t initState h rfl
    simpa [run, initState] using this
  refine ⟨?_, fun h => (hrun h).1, ?_⟩
  · intro e
    rw [run_append]
    exact step_downloadedBytes_le (run t) e
  · intro n hnt _htot hsum
    have h1 := hrun hnt
    rw [run_append, step_inProgress_finish (run t) h1.2]
    exact ⟨rfl, h1.1.trans hsum⟩

/-- Witness for C5: a transfer declaring 10 bytes, delivered as chunks of
4 and 6 bytes and finishing cleanly, ends completed with
`downloadedBytes = 10`. -/
theorem downloadedBytes_invariant_witness :
    (run ([Event.response (some "10"), Event.chunk 4, Event.chunk 6] ++
      [Event.finish])).taskState = TaskState.completed ∧
    (run ([Event.response (some "10"), Event.chunk 4, Event.chunk 6] ++
      [Event.finish])).downloadedBytes = 10 :=
  (downloadedBytes_invariant
    [Event.response (some "10"), Event.chunk 4, Event.chunk 6]).2.2 10
    (by decide) (by decide) (by decide)

/-- C6 (code behavior at the failing input): when the declared size is
absent or unparsable — `totalBytes` is `NaN` — the byte-counting variant
still computes `(downloadedBytes / totalBytes) * 100` and reports the `NaN`
percentage; the report carries no absolute byte count, as shown by two
transfers with different byte counts producing identical reports. -/
theorem progress_nan_on_unknown_size :
    (run [Event.response none, Event.chunk 1000]).reports =
      [ProgressValue.nanPercent] ∧
    (run [Event.response (some "abc"), Event.chunk 1000]).reports =
      [ProgressValue.nanPercent] ∧
    (run [Event.response none, Event.chunk 1000]).reports =
      (run [Event.response none, Event.chunk 7]).reports := by
  refine ⟨by decide, by decide, by decide⟩

/-- C7 (code behavior at the failing input): a transport error on the
source stream has no handler — the task is never marked failed, the
script's error handler prints nothing, and the process dies with an
uncaught exception. -/
theorem source_error_unhandled :
    (run [Event.response (some "100"), Event.chunk 10,
      Event.sourceError "ECONNRESET"]).taskState =
        TaskState.crashed "ECONNRESET" ∧
    (run [Event.response (some "100"), Event.chunk 10,
      Event.sourceError "ECONNRESET"]).errorPrinted = none ∧
    (run [Event.response (some "100"), Event.chunk 10,
      Event.sourceError "ECONNRESET"]).successPrinted = false := by
  refine ⟨by decide, by decide, by decide⟩

/-- The state property underlying C8: the completion message implies the
`finish` handler ran, and a printed write error implies the `error` handler
ran. -/
def StateInv (s : DownloadState) : Prop :=
  (s.successPrinted = true → s.taskState = TaskState.completed) ∧
  (∀ c, s.errorPrinted = some c → s.taskState = TaskState.failed)

theorem step_preserves_inv (s : DownloadState) (e : Event)
    (h : StateInv s) : StateInv (step s e) := by
  unfold step
  split
  · exact h
  · exact h
  · exact h
  · rename_i heq
    split
    · exact h
    · exact h
    · refine ⟨fun _ => rfl, fun c hc => ?_⟩
      exact absurd (heq.symm.trans (h.2 c hc)) (by decide)
    · refine ⟨fun hs => ?_, fun c hc => rfl⟩
      exact absurd (heq.symm.trans (h.1 hs)) (by decide)
    · refine ⟨fun hs => ?_, fun c hc => ?_⟩
      · exact absurd (heq.symm.trans (h.1 hs)) (by decide)
      · exact absurd (heq.symm.trans (h.2 c hc)) (by decide)

theorem foldl_preserves_inv (t : List Event) :
    ∀ s : DownloadState, StateInv s → StateInv (t.foldl step s) := by
  induction t with
  | nil => intro s h; exact h
  | cons e t ih =>
      intro s h
      rw [List.foldl_cons]
      exact ih (step s e) (step_preserves_inv s e h)

theorem run_state_inv (t : List Event) : StateInv (run t) :=
  foldl_preserves_inv t initState
    ⟨fun h => absurd h (by decide), fun c hc => by cases hc⟩

/-- C8: the byte-counting variant prints its completion message only when
the transfer has ended with the `finish` event and no write error was ever
reported — success is never signalled while the task is in any state other
than completed. -/
theorem success_only_after_completed (t : List Event)
    (h : (run t).successPrinted = true) :
    (run t).taskState = TaskState.completed ∧
    (run t).errorPrinted = none := by
  have hi := run_state_inv t
  refine ⟨hi.1 h, ?_⟩
  cases he : (run t).errorPrinted with
  | none => rfl
  | some c =>
      have h1 := hi.1 h
      have h2 := hi.2 c he
      rw [h1] at h2
      cases h2

/-- Witness for C8: a transfer that finishes cleanly. -/
theorem success_only_after_completed_witness :
    (run [Event.response (some "10"), Event.chunk 10,
      Event.finish]).taskState = TaskState.completed ∧
    (run [Event.response (some "10"), Event.chunk 10,
      Event.finish]).errorPrinted = none :=
  success_only_after_completed
    [Event.response (some "10"), Event.chunk 10, Event.finish] (by decide)

/-! ## Claim theorems for the destination path and the progress-bar setup -/

theorem outputFilePath_data (s : String) :
    (outputFilePath s).data = s.data ++ ".mp4".data := rfl

theorem outputFilePath_length (s : String) :
    (outputFilePath s).length = s.length + 4 := by
  unfold outputFilePath
  show (s.data ++ ".mp4".data).length = s.data.length + 4
  rw [List.length_append]
  rfl

/-- C9 counterexample: the destination path is built from the raw
user-supplied base name — the filesystem-illegal character `:` survives into
the path, a 300-character name is not capped, and applying the transform to
its own output changes it again (so it is not an idempotent sanitizer). -/
theorem no_sanitization_counterexample :
    ':' ∈ (outputFilePath "a:b").data ∧
    (outputFilePath (String.mk (List.replicate 300 'a'))).length = 304 ∧
    outputFilePath (outputFilePath "demo") ≠ outputFilePath "demo" := by
  refine ⟨by decide, ?_, by decide⟩
  rw [outputFilePath_length]
  show (List.replicate 300 'a').length + 4 = 304
  rw [List.length_replicate]

/-- C9 amended: no sanitization is applied to the output base name — the
destination path is the unmodified name with `.mp4` appended.  The map is
deterministic (equal inputs give equal outputs), but it strips no character
(every input character survives into the path), caps no length (the result
is always exactly four characters longer), and is not idempotent. -/
theorem outputFilePath_no_sanitization (s : String) :
    (∀ c, c ∈ s.data → c ∈ (outputFilePath s).data) ∧
    (outputFilePath s).length = s.length + 4 ∧
    (∀ t, s = t → outputFilePath s = outputFilePath t) ∧
    outputFilePath (outputFilePath s) ≠ outputFilePath s := by
  refine ⟨?_, outputFilePath_length s, ?_, ?_⟩
  · intro c hc
    rw [outputFilePath_data]
    exact List.mem_append_left _ hc
  · intro t ht
    rw [ht]
  · intro he
    have hlen := congrArg String.length he
    rw [outputFilePath_length, outputFilePath_length] at hlen
    omega

/-- Witness for C9 amended: the illegal character `:` survives into the
destination path of the base name `a:b`, whose length grows by four. -/
theorem outputFilePath_no_sanitization_witness :
    ':' ∈ (outputFilePath "a:b").data ∧
    (outputFilePath "a:b").length = "a:b".length + 4 :=
  ⟨(outputFilePath_no_sanitization "a:b").1 ':' (by decide),
    (outputFilePath_no_sanitization "a:b").2.1⟩

/-- C10: the progress-bar variant obtains its bar total by reading the size
of the destination file itself before any bytes are downloaded: when the
destination does not exist, `statSync` throws `ENOENT` before the pipe
starts; when it does exist, the bar total is the pre-existing file's size,
independent of the expected size of the stream being downloaded. -/
theorem progressBar_total_from_destination (files : List (String × Nat))
    (fileName : String) (expected : Option Nat) :
    (files.lookup (outputFilePath fileName) = none →
      setupProgressVariant files fileName expected =
        Except.error "ENOENT") ∧
    (∀ s, files.lookup (outputFilePath fileName) = some s →
      setupProgressVariant files fileName expected =
        Except.ok { barTotal := s, pipeStarted := true }) ∧
    (∀ expected2, setupProgressVariant files fileName expected =
      setupProgressVariant files fileName expected2) := by
  refine ⟨?_, ?_, fun expected2 => rfl⟩
  · intro h
    unfold setupProgressVariant statSyncSize
    rw [h]
  · intro s h
    unfold setupProgressVariant statSyncSize
    rw [h]

/-- Witness for C10: with no pre-existing `video.mp4` the setup throws
`ENOENT` even though the stream declares 999 bytes; with a stale 5-byte
`video.mp4` present, the bar total is 5, not the stream's 999. -/
theorem progressBar_total_from_destination_witness :
    setupProgressVariant [] "video" (some 999) = Except.error "ENOENT" ∧
    setupProgressVariant [("video.mp4", 5)] "video" (some 999) =
      Except.ok { barTotal := 5, pipeStarted := true } :=
  ⟨(progressBar_total_from_destination [] "video" (some 999)).1 rfl,
    (progressBar_total_from_destination [("video.mp4", 5)] "video"
      (some 999)).2.1 5 rfl⟩
